import Mathlib

/-!
# Verification of the JMeter quality-gates script

Shallow embedding of `src/utils/quality-gates.py`: the metrics aggregator
(`calculate_metrics`) and the gate evaluator (`validate_quality_gates`).

Modelling conventions:
* CSV rows (`csv.DictReader`) give string-valued fields; a missing column is
  modelled as `none`.
* Python `int(s)` is modelled by `pyParseInt`: optional surrounding
  whitespace, an optional sign, then a non-empty digit string; anything else
  raises (returns `none`, surfaced as `Except.error`).
* Python floats are modelled as exact rationals `ℚ`; `round(x, 2)` is
  modelled as round-half-to-even at two decimal places (`round2`), which is
  Python's rounding mode.
* Python exceptions are modelled by `Except String`; an uncaught exception
  aborts the computation with no partial result, so per-record parsing is
  hoisted in front of the accumulation loop (`parseAll` then `List.foldl`),
  which preserves both the success value and which field fails first.
* Python `list.sort()` is modelled by `List.insertionSort (· ≤ ·)`: any
  comparison sort yields the unique ascending reordering of the list.
-/

namespace QualityGates

/-- Python `str.strip()` of the characters of a string: drop leading and
trailing whitespace. -/
def pyStrip (s : String) : List Char :=
  ((s.data.dropWhile Char.isWhitespace).reverse.dropWhile Char.isWhitespace).reverse

/-- Python `str.lower()`. -/
def pyLower (s : String) : String :=
  ⟨s.data.map Char.toLower⟩

/-- Model of Python `int(s)` on a string: optional surrounding whitespace,
optional `+`/`-` sign, then one or more decimal digits; otherwise a
`ValueError` is raised (modelled as `none`). -/
def pyParseInt (s : String) : Option Int :=
  let t := pyStrip s
  let signDigits : Int × List Char :=
    match t with
    | '-' :: rest => (-1, rest)
    | '+' :: rest => (1, rest)
    | _ => (1, t)
  if !signDigits.2.isEmpty && signDigits.2.all Char.isDigit then
    some (signDigits.1 * signDigits.2.foldl (fun a c => a * 10 + ((c.toNat : Int) - 48)) 0)
  else
    none

/-- One row of the JTL file, as produced by `csv.DictReader`: each field is a
string when the column is present, and absent (`none`) otherwise. -/
structure SampleRecord where
  success : Option String
  elapsed : Option String
  timeStamp : Option String
deriving DecidableEq

/-- `result.get('success', 'true').lower() == 'false'` — the error test of the
loop body; a missing field defaults to the string `"true"`. -/
def successIsError (r : SampleRecord) : Bool :=
  pyLower (r.success.getD "true") == "false"

/-- `int(result.get('elapsed', 0))`: a missing field defaults to `0`; a
present field is parsed and raises when non-numeric. -/
def getElapsed (r : SampleRecord) : Option Int :=
  match r.elapsed with
  | none => some 0
  | some s => pyParseInt s

/-- `int(result.get('timeStamp', 0))`: a missing field defaults to `0`; a
present field is parsed and raises when non-numeric. -/
def getTimeStamp (r : SampleRecord) : Option Int :=
  match r.timeStamp with
  | none => some 0
  | some s => pyParseInt s

/-- A record is valid when both `int(...)` conversions succeed. -/
def recordValid (r : SampleRecord) : Bool :=
  (getElapsed r).isSome && (getTimeStamp r).isSome

/-- The elapsed value the loop appends for a valid record. -/
def elapsedOf (r : SampleRecord) : Int :=
  (getElapsed r).getD 0

/-- The timestamp value the loop tracks for a valid record. -/
def timeStampOf (r : SampleRecord) : Int :=
  (getTimeStamp r).getD 0

/-- The per-record data consumed by the accumulation loop. -/
structure ParsedSample where
  isError : Bool
  elapsed : Int
  timeStamp : Int
deriving DecidableEq

/-- The parsed form of a valid record. -/
def parsedOf (r : SampleRecord) : ParsedSample :=
  ⟨successIsError r, elapsedOf r, timeStampOf r⟩

/-- Parsing one record: `int('...')` on a present non-numeric `elapsed` or
`timeStamp` raises a `ValueError` naming the offending literal; the
`elapsed` conversion runs first, as in the loop body. -/
def parseRecord (r : SampleRecord) : Except String ParsedSample :=
  match getElapsed r with
  | none => .error ("invalid literal for int() with base 10, field elapsed: " ++ r.elapsed.getD "")
  | some e =>
    match getTimeStamp r with
    | none => .error ("invalid literal for int() with base 10, field timeStamp: " ++ r.timeStamp.getD "")
    | some t => .ok ⟨successIsError r, e, t⟩

/-- Parse all records in order; the first failing record's exception
propagates, exactly as the uncaught `ValueError` aborts the Python loop. -/
def parseAll : List SampleRecord → Except String (List ParsedSample)
  | [] => .ok []
  | r :: rs =>
    match parseRecord r with
    | .error msg => .error msg
    | .ok p =>
      match parseAll rs with
      | .error msg => .error msg
      | .ok ps => .ok (p :: ps)

/-- `if start_time is None or timestamp < start_time: start_time = timestamp` -/
def stepMin (a : Option Int) (t : Int) : Option Int :=
  match a with
  | none => some t
  | some s => if t < s then some t else some s

/-- `if end_time is None or timestamp > end_time: end_time = timestamp` -/
def stepMax (a : Option Int) (t : Int) : Option Int :=
  match a with
  | none => some t
  | some e => if t > e then some t else some e

/-- The mutable state of the `for result in results` loop. -/
structure LoopState where
  error_count : Nat
  response_times : List Int
  start_time : Option Int
  end_time : Option Int

/-- One iteration of the loop: count the error, append the elapsed time, and
update the running minimum and maximum timestamps. -/
def loopStep (st : LoopState) (p : ParsedSample) : LoopState :=
  { error_count := if p.isError then st.error_count + 1 else st.error_count
    response_times := st.response_times ++ [p.elapsed]
    start_time := stepMin st.start_time p.timeStamp
    end_time := stepMax st.end_time p.timeStamp }

/-- The loop state before the first iteration. -/
def initState : LoopState :=
  ⟨0, [], none, none⟩

/-- Round-half-to-even to an integer, the rounding mode of Python `round`. -/
def roundHalfEven (q : ℚ) : Int :=
  if q - ⌊q⌋ < 1 / 2 then ⌊q⌋
  else if q - ⌊q⌋ > 1 / 2 then ⌊q⌋ + 1
  else if ⌊q⌋ % 2 = 0 then ⌊q⌋ else ⌊q⌋ + 1

/-- Python `round(x, 2)`. -/
def round2 (q : ℚ) : ℚ :=
  (roundHalfEven (q * 100) : ℚ) / 100

/-- Python truthiness of an int-or-None variable: `None` and `0` are falsy. -/
def pyTruthy : Option Int → Bool
  | none => false
  | some v => v != 0

/-- `(error_count / total_samples) * 100`, before rounding. -/
def error_rate_of (error_count total : Nat) : ℚ :=
  ((error_count : ℚ) / (total : ℚ)) * 100

/-- `int(len(response_times) * p)` — the nearest-rank percentile index. -/
def percentileIndex (n : Nat) (p : ℚ) : Nat :=
  (⌊(n : ℚ) * p⌋).toNat

/-- `response_times[i] if i < len(response_times) else response_times[-1]`. -/
def percentileValue (sorted : List Int) (p : ℚ) : Int :=
  if h : percentileIndex sorted.length p < sorted.length then
    sorted.get ⟨percentileIndex sorted.length p, h⟩
  else
    sorted.getLast?.getD 0

/-- The metrics dictionary returned by `calculate_metrics`. -/
@[ext]
structure Metrics where
  total_samples : Nat
  error_count : Nat
  error_rate : ℚ
  avg_response_time : ℚ
  p95_response_time : Int
  p99_response_time : Int
  throughput : ℚ
deriving DecidableEq

/-- The metrics of an empty result list. -/
def zeroMetrics : Metrics :=
  ⟨0, 0, 0, 0, 0, 0, 0⟩

/-- The non-empty branch of `calculate_metrics`, applied to the parsed
samples: run the loop, sort the latencies, and compute error rate, average,
percentiles and throughput. -/
def mkMetrics (total : Nat) (ps : List ParsedSample) : Metrics :=
  let st := ps.foldl loopStep initState
  let response_times := List.insertionSort (· ≤ ·) st.response_times
  let duration : ℚ :=
    if pyTruthy st.end_time && pyTruthy st.start_time then
      ((st.end_time.getD 0 - st.start_time.getD 0 : Int) : ℚ) / 1000
    else 1
  { total_samples := total
    error_count := st.error_count
    error_rate := round2 (error_rate_of st.error_count total)
    avg_response_time := round2 ((response_times.sum : ℚ) / (response_times.length : ℚ))
    p95_response_time := percentileValue response_times (95 / 100)
    p99_response_time := percentileValue response_times (99 / 100)
    throughput := round2 (if 0 < duration then (total : ℚ) / duration else 0) }

/-- `calculate_metrics`: empty input returns the all-zero metrics; otherwise
process every sample (propagating `ValueError` on malformed fields) and
derive the summary. -/
def calculate_metrics (results : List SampleRecord) : Except String Metrics :=
  if results.length = 0 then
    .ok zeroMetrics
  else
    match parseAll results with
    | .error msg => .error msg
    | .ok ps => .ok (mkMetrics results.length ps)

/-- The five quality-gate thresholds, with the argparse defaults. -/
structure Thresholds where
  error_rate_threshold : ℚ
  avg_response_threshold : Int
  p95_threshold : Int
  p99_threshold : Int
  throughput_threshold : ℚ
deriving DecidableEq

/-- The argparse default thresholds. -/
def defaultThresholds : Thresholds :=
  ⟨2, 500, 800, 1200, 10⟩

/-- One reported gate line: its name and whether it passed. -/
structure GateResult where
  name : String
  passed : Bool
deriving DecidableEq

/-- The output of `validate_quality_gates`: all five gate lines, and the
final `all_gates_passed` flag. -/
structure Verdict where
  gates : List GateResult
  all_gates_passed : Bool
deriving DecidableEq

/-- `validate_quality_gates`: each of the five gates is checked with its own
`if` (four `measured <= threshold`, throughput `measured >= threshold`); a
failing gate clears `all_gates_passed`, and every gate is always reported. -/
def validate_quality_gates (m : Metrics) (t : Thresholds) : Verdict :=
  let g1 := decide (m.error_rate ≤ t.error_rate_threshold)
  let g2 := decide (m.avg_response_time ≤ (t.avg_response_threshold : ℚ))
  let g3 := decide (m.p95_response_time ≤ t.p95_threshold)
  let g4 := decide (m.p99_response_time ≤ t.p99_threshold)
  let g5 := decide (m.throughput ≥ t.throughput_threshold)
  { gates :=
      [⟨"Error Rate", g1⟩, ⟨"Avg Response Time", g2⟩, ⟨"P95 Response Time", g3⟩,
        ⟨"P99 Response Time", g4⟩, ⟨"Throughput", g5⟩]
    all_gates_passed := g1 && g2 && g3 && g4 && g5 }

/-- The ascending-sorted latency list derived from a result list. -/
def sortedElapsed (rs : List SampleRecord) : List Int :=
  List.insertionSort (· ≤ ·) (rs.map elapsedOf)

/-- The duration the code computes from the extreme timestamps `mn ≤ mx`:
the span in seconds when both are truthy (nonzero), and `1` otherwise. -/
def pyDuration (mn mx : Int) : ℚ :=
  if mx ≠ 0 ∧ mn ≠ 0 then ((mx - mn : Int) : ℚ) / 1000 else 1

/-- Ten all-success samples with latencies 100..1000 ms and no timestamps. -/
def rs10 : List SampleRecord :=
  [⟨none, some "100", none⟩, ⟨none, some "200", none⟩, ⟨none, some "300", none⟩,
    ⟨none, some "400", none⟩, ⟨none, some "500", none⟩, ⟨none, some "600", none⟩,
    ⟨none, some "700", none⟩, ⟨none, some "800", none⟩, ⟨none, some "900", none⟩,
    ⟨none, some "1000", none⟩]

/-- The metrics of `rs10`. -/
def m10 : Metrics :=
  ⟨10, 0, 0, 550, 1000, 1000, 10⟩

/-- The spec's §8 scenario: latencies 100/200/300 at timestamps 0/500/1000. -/
def rs3 : List SampleRecord :=
  [⟨none, some "100", some "0"⟩, ⟨none, some "200", some "500"⟩, ⟨none, some "300", some "1000"⟩]

/-- The metrics of `rs3`. -/
def m3 : Metrics :=
  ⟨3, 0, 0, 200, 300, 300, 3⟩

/-- Two samples sharing the same nonzero timestamp (zero-width span). -/
def rsFlat : List SampleRecord :=
  [⟨none, some "100", some "500"⟩, ⟨none, some "100", some "500"⟩]

/-- One sample whose `success` field holds the unrecognized token `banana`. -/
def rsBanana : List SampleRecord :=
  [⟨some "banana", some "100", some "0"⟩]

/-- Two samples, one failed, spanning timestamps 1000..3000. -/
def rsPair : List SampleRecord :=
  [⟨some "false", some "100", some "1000"⟩, ⟨none, some "300", some "3000"⟩]

/-- `rsPair` in the opposite order. -/
def rsPairSwapped : List SampleRecord :=
  [⟨none, some "300", some "3000"⟩, ⟨some "false", some "100", some "1000"⟩]

/-- The metrics of `rsPair`: 1 error of 2 samples, latencies 100/300,
a 2-second span. -/
def mPair : Metrics :=
  ⟨2, 1, 50, 200, 300, 300, 1⟩

/-- Two samples whose minimum timestamp is 0 while the span is positive. -/
def rsZeroStart : List SampleRecord :=
  [⟨none, some "100", some "0"⟩, ⟨none, some "200", some "1000"⟩]

/-- Two samples spanning timestamps 1000..3000, both successful. -/
def rsSpan : List SampleRecord :=
  [⟨none, some "100", some "1000"⟩, ⟨none, some "300", some "3000"⟩]

end QualityGates

deriving instance DecidableEq for Except

namespace QualityGates

/-! ### Record parsing -/

theorem parseRecord_ok_iff {r : SampleRecord} {p : ParsedSample} :
    parseRecord r = .ok p ↔ recordValid r = true ∧ p = parsedOf r := by
  unfold parseRecord recordValid parsedOf elapsedOf timeStampOf
  cases he : getElapsed r with
  | none => simp [he]
  | some e =>
    cases ht : getTimeStamp r with
    | none => simp [he, ht]
    | some t =>
      simp only [he, ht, Option.isSome_some, Bool.and_self, Option.getD_some, true_and,
        Except.ok.injEq]
      exact ⟨fun h => h.symm, fun h => h.symm⟩

theorem parseAll_of_valid {rs : List SampleRecord} (h : ∀ r ∈ rs, recordValid r = true) :
    parseAll rs = .ok (rs.map parsedOf) := by
  induction rs with
  | nil => rfl
  | cons r rs ih =>
    have hr : parseRecord r = .ok (parsedOf r) :=
      parseRecord_ok_iff.mpr ⟨h r (List.mem_cons_self r rs), rfl⟩
    have hrs := ih fun x hx => h x (List.mem_cons_of_mem _ hx)
    simp [parseAll, hr, hrs]

theorem parseAll_ok {rs : List SampleRecord} {ps : List ParsedSample}
    (h : parseAll rs = .ok ps) :
    (∀ r ∈ rs, recordValid r = true) ∧ ps = rs.map parsedOf := by
  induction rs generalizing ps with
  | nil =>
    simp only [parseAll, Except.ok.injEq] at h
    simp [h.symm]
  | cons r rs ih =>
    unfold parseAll at h
    cases hp : parseRecord r with
    | error msg => rw [hp] at h; cases h
    | ok p =>
      rw [hp] at h
      cases hq : parseAll rs with
      | error msg => rw [hq] at h; cases h
      | ok ps2 =>
        rw [hq] at h
        obtain ⟨hv, hp2⟩ := parseRecord_ok_iff.mp hp
        obtain ⟨hvs, hps2⟩ := ih hq
        simp only [Except.ok.injEq] at h
        subst h
        refine ⟨?_, by simp [hp2, hps2]⟩
        intro x hx
        rcases List.mem_cons.mp hx with rfl | hx
        · exact hv
        · exact hvs x hx

theorem parseAll_error_of_invalid {rs : List SampleRecord} {r : SampleRecord}
    (hmem : r ∈ rs) (hinv : recordValid r = false) :
    ∃ msg, parseAll rs = .error msg := by
  cases hq : parseAll rs with
  | error msg => exact ⟨msg, rfl⟩
  | ok ps =>
    obtain ⟨hv, _⟩ := parseAll_ok hq
    rw [hv r hmem] at hinv
    cases hinv

theorem calculate_metrics_ok_iff {rs : List SampleRecord} {m : Metrics} (hne : rs ≠ []) :
    calculate_metrics rs = .ok m ↔
      (∀ r ∈ rs, recordValid r = true) ∧ m = mkMetrics rs.length (rs.map parsedOf) := by
  have hlen : ¬rs.length = 0 := by simpa [List.length_eq_zero] using hne
  constructor
  · intro h
    unfold calculate_metrics at h
    rw [if_neg hlen] at h
    cases hq : parseAll rs with
    | error msg => rw [hq] at h; cases h
    | ok ps =>
      rw [hq] at h
      obtain ⟨hv, hps⟩ := parseAll_ok hq
      simp only [Except.ok.injEq] at h
      exact ⟨hv, by rw [← h, hps]⟩
  · rintro ⟨hv, rfl⟩
    unfold calculate_metrics
    rw [if_neg hlen, parseAll_of_valid hv]

theorem calculate_metrics_error_of_invalid {rs : List SampleRecord} {r : SampleRecord}
    (hmem : r ∈ rs) (hinv : recordValid r = false) :
    ∃ msg, calculate_metrics rs = .error msg := by
  obtain ⟨msg, hmsg⟩ := parseAll_error_of_invalid hmem hinv
  refine ⟨msg, ?_⟩
  unfold calculate_metrics
  rw [if_neg (by simpa [List.length_eq_zero] using List.ne_nil_of_mem hmem), hmsg]

/-! ### The accumulation loop -/

theorem foldl_loopStep_error_count (ps : List ParsedSample) (st : LoopState) :
    (ps.foldl loopStep st).error_count = st.error_count + ps.countP (·.isError) := by
  induction ps generalizing st with
  | nil => simp
  | cons p ps ih =>
    rw [List.foldl_cons, ih, List.countP_cons]
    simp only [loopStep]
    by_cases h : p.isError
    · simp only [h, if_true]
      omega
    · simp [h]

theorem foldl_loopStep_response (ps : List ParsedSample) (st : LoopState) :
    (ps.foldl loopStep st).response_times = st.response_times ++ ps.map (·.elapsed) := by
  induction ps generalizing st with
  | nil => simp
  | cons p ps ih =>
    rw [List.foldl_cons, ih]
    simp [loopStep]

theorem foldl_loopStep_start (ps : List ParsedSample) (st : LoopState) :
    (ps.foldl loopStep st).start_time = (ps.map (·.timeStamp)).foldl stepMin st.start_time := by
  induction ps generalizing st with
  | nil => simp
  | cons p ps ih =>
    rw [List.foldl_cons, ih]
    simp [loopStep]

theorem foldl_loopStep_end (ps : List ParsedSample) (st : LoopState) :
    (ps.foldl loopStep st).end_time = (ps.map (·.timeStamp)).foldl stepMax st.end_time := by
  induction ps generalizing st with
  | nil => simp
  | cons p ps ih =>
    rw [List.foldl_cons, ih]
    simp [loopStep]

theorem stepMin_some (s t : Int) : stepMin (some s) t = some (min s t) := by
  show (if t < s then some t else some s) = some (min s t)
  rcases lt_or_ge t s with h | h
  · rw [if_pos h, min_eq_right h.le]
  · rw [if_neg (not_lt.mpr h), min_eq_left h]

theorem stepMax_some (s t : Int) : stepMax (some s) t = some (max s t) := by
  show (if t > s then some t else some s) = some (max s t)
  rcases lt_or_ge s t with h | h
  · rw [if_pos h, max_eq_right h.le]
  · rw [if_neg (not_lt.mpr h), max_eq_left h]

theorem foldl_stepMin_some (ts : List Int) (s : Int) :
    ts.foldl stepMin (some s) = some (ts.foldl min s) := by
  induction ts generalizing s with
  | nil => rfl
  | cons t ts ih => rw [List.foldl_cons, stepMin_some, ih, List.foldl_cons]

theorem foldl_stepMax_some (ts : List Int) (s : Int) :
    ts.foldl stepMax (some s) = some (ts.foldl max s) := by
  induction ts generalizing s with
  | nil => rfl
  | cons t ts ih => rw [List.foldl_cons, stepMax_some, ih, List.foldl_cons]

theorem foldl_min_le_init (ts : List Int) (s : Int) : ts.foldl min s ≤ s := by
  induction ts generalizing s with
  | nil => exact le_refl s
  | cons t ts ih => exact le_trans (ih (min s t)) (min_le_left s t)

theorem foldl_min_le_mem (ts : List Int) : ∀ (s t : Int), t ∈ ts → ts.foldl min s ≤ t := by
  induction ts with
  | nil => intro s t h; cases h
  | cons a ts ih =>
    intro s t h
    rcases List.mem_cons.mp h with rfl | h2
    · exact le_trans (foldl_min_le_init ts (min s t)) (min_le_right s t)
    · exact ih (min s a) t h2

theorem foldl_min_mem_or (ts : List Int) (s : Int) :
    ts.foldl min s = s ∨ ts.foldl min s ∈ ts := by
  induction ts generalizing s with
  | nil => exact Or.inl rfl
  | cons a ts ih =>
    rw [List.foldl_cons]
    rcases ih (min s a) with h | h
    · rw [h]
      rcases le_total s a with hs | hs
      · rw [min_eq_left hs]
        exact Or.inl rfl
      · rw [min_eq_right hs]
        exact Or.inr (List.mem_cons_self a ts)
    · exact Or.inr (List.mem_cons_of_mem a h)

theorem foldl_max_ge_init (ts : List Int) (s : Int) : s ≤ ts.foldl max s := by
  induction ts generalizing s with
  | nil => exact le_refl s
  | cons t ts ih => exact le_trans (le_max_left s t) (ih (max s t))

theorem foldl_max_ge_mem (ts : List Int) : ∀ (s t : Int), t ∈ ts → t ≤ ts.foldl max s := by
  induction ts with
  | nil => intro s t h; cases h
  | cons a ts ih =>
    intro s t h
    rcases List.mem_cons.mp h with rfl | h2
    · exact le_trans (le_max_right s t) (foldl_max_ge_init ts (max s t))
    · exact ih (max s a) t h2

theorem foldl_max_mem_or (ts : List Int) (s : Int) :
    ts.foldl max s = s ∨ ts.foldl max s ∈ ts := by
  induction ts generalizing s with
  | nil => exact Or.inl rfl
  | cons a ts ih =>
    rw [List.foldl_cons]
    rcases ih (max s a) with h | h
    · rw [h]
      rcases le_total s a with hs | hs
      · rw [max_eq_right hs]
        exact Or.inr (List.mem_cons_self a ts)
      · rw [max_eq_left hs]
        exact Or.inl rfl
    · exact Or.inr (List.mem_cons_of_mem a h)

theorem start_time_spec (ps : List ParsedSample) (hne : ps ≠ []) :
    ∃ v, (ps.foldl loopStep initState).start_time = some v ∧
      v ∈ ps.map (·.timeStamp) ∧ ∀ t ∈ ps.map (·.timeStamp), v ≤ t := by
  obtain ⟨p, ps2, rfl⟩ := List.exists_cons_of_ne_nil hne
  rw [foldl_loopStep_start]
  simp only [List.map_cons, List.foldl_cons, initState]
  rw [show stepMin none p.timeStamp = some p.timeStamp from rfl, foldl_stepMin_some]
  refine ⟨_, rfl, ?_, ?_⟩
  · rcases foldl_min_mem_or (ps2.map (·.timeStamp)) p.timeStamp with h | h
    · rw [h]
      exact List.mem_cons_self _ _
    · exact List.mem_cons_of_mem _ h
  · intro t ht
    rcases List.mem_cons.mp ht with rfl | ht
    · exact foldl_min_le_init _ _
    · exact foldl_min_le_mem _ _ _ ht

theorem end_time_spec (ps : List ParsedSample) (hne : ps ≠ []) :
    ∃ v, (ps.foldl loopStep initState).end_time = some v ∧
      v ∈ ps.map (·.timeStamp) ∧ ∀ t ∈ ps.map (·.timeStamp), t ≤ v := by
  obtain ⟨p, ps2, rfl⟩ := List.exists_cons_of_ne_nil hne
  rw [foldl_loopStep_end]
  simp only [List.map_cons, List.foldl_cons, initState]
  rw [show stepMax none p.timeStamp = some p.timeStamp from rfl, foldl_stepMax_some]
  refine ⟨_, rfl, ?_, ?_⟩
  · rcases foldl_max_mem_or (ps2.map (·.timeStamp)) p.timeStamp with h | h
    · rw [h]
      exact List.mem_cons_self _ _
    · exact List.mem_cons_of_mem _ h
  · intro t ht
    rcases List.mem_cons.mp ht with rfl | ht
    · exact foldl_max_ge_init _ _
    · exact foldl_max_ge_mem _ _ _ ht

end QualityGates

namespace QualityGates

/-! ### Rounding -/

theorem le_roundHalfEven (q : ℚ) : ⌊q⌋ ≤ roundHalfEven q := by
  unfold roundHalfEven
  split_ifs <;> omega

theorem roundHalfEven_le (q : ℚ) : roundHalfEven q ≤ ⌊q⌋ + 1 := by
  unfold roundHalfEven
  split_ifs <;> omega

theorem roundHalfEven_mono {x y : ℚ} (h : x ≤ y) : roundHalfEven x ≤ roundHalfEven y := by
  have hf : ⌊x⌋ ≤ ⌊y⌋ := Int.floor_le_floor h
  rcases lt_or_eq_of_le hf with hlt | heq
  · have h1 := roundHalfEven_le x
    have h2 := le_roundHalfEven y
    omega
  · have hxy : x - ⌊x⌋ ≤ y - ⌊x⌋ := by linarith
    unfold roundHalfEven
    rw [← heq]
    split_ifs <;> first | omega | (exfalso; linarith)

theorem round2_mono {x y : ℚ} (h : x ≤ y) : round2 x ≤ round2 y := by
  unfold round2
  have h1 : roundHalfEven (x * 100) ≤ roundHalfEven (y * 100) :=
    roundHalfEven_mono (by linarith)
  have h2 : ((roundHalfEven (x * 100) : Int) : ℚ) ≤ roundHalfEven (y * 100) := by
    exact_mod_cast h1
  linarith

theorem roundHalfEven_intCast (n : Int) : roundHalfEven (n : ℚ) = n := by
  unfold roundHalfEven
  rw [Int.floor_intCast, sub_self]
  norm_num

theorem round2_intCast (n : Int) : round2 (n : ℚ) = n := by
  unfold round2
  have h : ((n : ℚ) * 100) = ((n * 100 : Int) : ℚ) := by push_cast; ring
  rw [h, roundHalfEven_intCast]
  push_cast
  ring

theorem round2_natCast (n : Nat) : round2 (n : ℚ) = n := by
  have := round2_intCast (n : Int)
  rwa [Int.cast_natCast] at this

/-! ### Percentile indexing -/

theorem percentileIndex_lt {n : Nat} (hn : 0 < n) {p : ℚ} (hp1 : p < 1) :
    percentileIndex n p < n := by
  unfold percentileIndex
  have hx : (n : ℚ) * p < n := by
    calc (n : ℚ) * p < (n : ℚ) * 1 := by
          exact mul_lt_mul_of_pos_left hp1 (by exact_mod_cast hn)
      _ = n := mul_one _
  have hfl : ⌊(n : ℚ) * p⌋ < (n : Int) := Int.floor_lt.mpr (by exact_mod_cast hx)
  omega

theorem percentileIndex_mono (n : Nat) {p q : ℚ} (hpq : p ≤ q) :
    percentileIndex n p ≤ percentileIndex n q := by
  unfold percentileIndex
  have hc : (0 : ℚ) ≤ n := by positivity
  have := Int.floor_le_floor (mul_le_mul_of_nonneg_left hpq hc)
  omega

/-! ### The fields of `mkMetrics` -/

theorem mkMetrics_total (total : Nat) (ps : List ParsedSample) :
    (mkMetrics total ps).total_samples = total := rfl

theorem mkMetrics_error_count (total : Nat) (ps : List ParsedSample) :
    (mkMetrics total ps).error_count = ps.countP (·.isError) := by
  simp only [mkMetrics]
  rw [foldl_loopStep_error_count]
  simp [initState]

theorem mkMetrics_error_rate (total : Nat) (ps : List ParsedSample) :
    (mkMetrics total ps).error_rate = round2 (error_rate_of (ps.countP (·.isError)) total) := by
  simp only [mkMetrics]
  rw [foldl_loopStep_error_count]
  simp [initState]

/-- The ascending-sorted latency list of the parsed samples. -/
def sortedTimes (ps : List ParsedSample) : List Int :=
  List.insertionSort (· ≤ ·) (ps.map (·.elapsed))

theorem loop_response_times (ps : List ParsedSample) :
    (ps.foldl loopStep initState).response_times = ps.map (·.elapsed) := by
  rw [foldl_loopStep_response]
  rfl

theorem mkMetrics_avg (total : Nat) (ps : List ParsedSample) :
    (mkMetrics total ps).avg_response_time =
      round2 (((sortedTimes ps).sum : ℚ) / ((sortedTimes ps).length : ℚ)) := by
  simp only [mkMetrics, sortedTimes]
  rw [loop_response_times]

theorem mkMetrics_p95 (total : Nat) (ps : List ParsedSample) :
    (mkMetrics total ps).p95_response_time = percentileValue (sortedTimes ps) (95 / 100) := by
  simp only [mkMetrics, sortedTimes]
  rw [loop_response_times]

theorem mkMetrics_p99 (total : Nat) (ps : List ParsedSample) :
    (mkMetrics total ps).p99_response_time = percentileValue (sortedTimes ps) (99 / 100) := by
  simp only [mkMetrics, sortedTimes]
  rw [loop_response_times]

theorem mkMetrics_throughput (total : Nat) (ps : List ParsedSample) (hne : ps ≠ [])
    (mn mx : Int)
    (hmn : mn ∈ ps.map (·.timeStamp)) (hmnle : ∀ t ∈ ps.map (·.timeStamp), mn ≤ t)
    (hmx : mx ∈ ps.map (·.timeStamp)) (hmxge : ∀ t ∈ ps.map (·.timeStamp), t ≤ mx) :
    (mkMetrics total ps).throughput =
      round2 (if 0 < pyDuration mn mx then (total : ℚ) / pyDuration mn mx else 0) := by
  obtain ⟨v, hv, hvmem, hvle⟩ := start_time_spec ps hne
  obtain ⟨w, hw, hwmem, hwge⟩ := end_time_spec ps hne
  have hvmn : v = mn := le_antisymm (hvle mn hmn) (hmnle v hvmem)
  have hwmx : w = mx := le_antisymm (hmxge w hwmem) (hwge mx hmx)
  rw [hvmn] at hv
  rw [hwmx] at hw
  simp only [mkMetrics]
  rw [hv, hw]
  simp only [pyTruthy, Option.getD_some]
  unfold pyDuration
  by_cases h0 : mx ≠ 0 ∧ mn ≠ 0
  · have hb : (mx != 0 && mn != 0) = true := by
      simp only [Bool.and_eq_true, bne_iff_ne]
      exact ⟨h0.1, h0.2⟩
    rw [hb, if_pos rfl, if_pos h0]
  · have hb : (mx != 0 && mn != 0) = false := by
      rw [Bool.and_eq_false_iff]
      rcases not_and_or.mp h0 with h | h
      · exact Or.inl (by simpa [bne_iff_ne] using h)
      · exact Or.inr (by simpa [bne_iff_ne] using h)
    rw [if_neg h0, hb]
    simp

end QualityGates

namespace QualityGates

/-! ### Permutation invariance of the aggregation -/

theorem sortedTimes_perm {ps ps2 : List ParsedSample} (h : ps.Perm ps2) :
    sortedTimes ps = sortedTimes ps2 :=
  List.eq_of_perm_of_sorted
    ((List.perm_insertionSort _ _).trans ((h.map _).trans (List.perm_insertionSort _ _).symm))
    (List.sorted_insertionSort _ _) (List.sorted_insertionSort _ _)

theorem start_time_perm {ps ps2 : List ParsedSample} (h : ps.Perm ps2) :
    (ps.foldl loopStep initState).start_time = (ps2.foldl loopStep initState).start_time := by
  rcases eq_or_ne ps [] with rfl | hne
  · rw [List.Perm.eq_nil h.symm]
  · have hne2 : ps2 ≠ [] := fun hh => hne (List.Perm.eq_nil (hh ▸ h))
    obtain ⟨v, hv, hvmem, hvle⟩ := start_time_spec ps hne
    obtain ⟨v2, hv2, hvmem2, hvle2⟩ := start_time_spec ps2 hne2
    have hvv : v = v2 :=
      le_antisymm (hvle v2 ((h.map _).mem_iff.mpr hvmem2))
        (hvle2 v ((h.map _).mem_iff.mp hvmem))
    rw [hv, hv2, hvv]

theorem end_time_perm {ps ps2 : List ParsedSample} (h : ps.Perm ps2) :
    (ps.foldl loopStep initState).end_time = (ps2.foldl loopStep initState).end_time := by
  rcases eq_or_ne ps [] with rfl | hne
  · rw [List.Perm.eq_nil h.symm]
  · have hne2 : ps2 ≠ [] := fun hh => hne (List.Perm.eq_nil (hh ▸ h))
    obtain ⟨v, hv, hvmem, hvge⟩ := end_time_spec ps hne
    obtain ⟨v2, hv2, hvmem2, hvge2⟩ := end_time_spec ps2 hne2
    have hvv : v = v2 :=
      le_antisymm (hvge2 v ((h.map _).mem_iff.mp hvmem))
        (hvge v2 ((h.map _).mem_iff.mpr hvmem2))
    rw [hv, hv2, hvv]

theorem mkMetrics_perm (total : Nat) {ps ps2 : List ParsedSample} (h : ps.Perm ps2) :
    mkMetrics total ps = mkMetrics total ps2 := by
  have hcount : ps.countP (·.isError) = ps2.countP (·.isError) := h.countP_eq _
  have hsort := sortedTimes_perm h
  ext
  · rw [mkMetrics_total, mkMetrics_total]
  · rw [mkMetrics_error_count, mkMetrics_error_count, hcount]
  · rw [mkMetrics_error_rate, mkMetrics_error_rate, hcount]
  · rw [mkMetrics_avg, mkMetrics_avg, hsort]
  · rw [mkMetrics_p95, mkMetrics_p95, hsort]
  · rw [mkMetrics_p99, mkMetrics_p99, hsort]
  · show (mkMetrics total ps).throughput = (mkMetrics total ps2).throughput
    simp only [mkMetrics]
    rw [start_time_perm h, end_time_perm h]

/-- The latency list of the parsed samples is the record-level latency list. -/
theorem sortedElapsed_eq (rs : List SampleRecord) :
    sortedTimes (rs.map parsedOf) = sortedElapsed rs := by
  unfold sortedTimes sortedElapsed
  rw [List.map_map]
  rfl

theorem timeStamps_map_eq (rs : List SampleRecord) :
    (rs.map parsedOf).map (·.timeStamp) = rs.map timeStampOf := by
  rw [List.map_map]
  rfl

end QualityGates

namespace QualityGates

/-! ### Claim theorems -/

/-- C4: On the empty sample collection the Aggregator does not fail and
returns the summary with total_samples = 0, error_count = 0, error_rate = 0.0,
avg_response_time = 0, p95_response_time = 0, p99_response_time = 0 and
throughput = 0.0. -/
theorem empty_input_zero_metrics :
    calculate_metrics [] = .ok ⟨0, 0, 0, 0, 0, 0, 0⟩ := rfl

/-- C2: The Gate Evaluator's overall verdict is true iff all five gate
comparisons hold — error rate, average, p95 and p99 pass iff measured ≤
threshold, throughput passes iff measured ≥ threshold, so equality passes on
every gate — and all five gates are always evaluated and reported, each with
its own comparison. -/
theorem gate_verdict_iff_all_pass (m : Metrics) (t : Thresholds) :
    ((validate_quality_gates m t).all_gates_passed = true ↔
      (m.error_rate ≤ t.error_rate_threshold ∧
        m.avg_response_time ≤ (t.avg_response_threshold : ℚ) ∧
        m.p95_response_time ≤ t.p95_threshold ∧
        m.p99_response_time ≤ t.p99_threshold ∧
        m.throughput ≥ t.throughput_threshold)) ∧
    (validate_quality_gates m t).gates.map GateResult.passed =
      [decide (m.error_rate ≤ t.error_rate_threshold),
        decide (m.avg_response_time ≤ (t.avg_response_threshold : ℚ)),
        decide (m.p95_response_time ≤ t.p95_threshold),
        decide (m.p99_response_time ≤ t.p99_threshold),
        decide (m.throughput ≥ t.throughput_threshold)] := by
  constructor
  · simp [validate_quality_gates, Bool.and_eq_true, decide_eq_true_eq, and_assoc]
  · simp [validate_quality_gates]

/-- C1: For every non-empty sample list, p95 and p99 are read from the
ascending-sorted latency list at 0-based index `floor(n × P)` when that index
is below `n`, and at the last element otherwise; in particular for the sorted
list [100, ..., 1000] (n = 10) both percentiles are 1000 (see the witness). -/
theorem percentile_nearest_rank (rs : List SampleRecord) (m : Metrics)
    (hne : rs ≠ []) (hok : calculate_metrics rs = .ok m) :
    (m.p95_response_time =
      if h : (⌊((sortedElapsed rs).length : ℚ) * (95 / 100)⌋).toNat < (sortedElapsed rs).length
      then (sortedElapsed rs).get
        ⟨(⌊((sortedElapsed rs).length : ℚ) * (95 / 100)⌋).toNat, h⟩
      else (sortedElapsed rs).getLast?.getD 0) ∧
    (m.p99_response_time =
      if h : (⌊((sortedElapsed rs).length : ℚ) * (99 / 100)⌋).toNat < (sortedElapsed rs).length
      then (sortedElapsed rs).get
        ⟨(⌊((sortedElapsed rs).length : ℚ) * (99 / 100)⌋).toNat, h⟩
      else (sortedElapsed rs).getLast?.getD 0) := by
  obtain ⟨hv, rfl⟩ := (calculate_metrics_ok_iff hne).mp hok
  rw [mkMetrics_p95, mkMetrics_p99, sortedElapsed_eq]
  constructor <;> rfl

set_option maxRecDepth 100000 in
/-- C1 witness: on the ten latencies 100..1000 the theorem applies, and both
nearest-rank percentiles evaluate to 1000 (index floor(10 × P) = 9). -/
theorem percentile_nearest_rank_witness :
    rs10 ≠ [] ∧ calculate_metrics rs10 = .ok m10 ∧
      m10.p95_response_time = 1000 ∧ m10.p99_response_time = 1000 := by
  have hne : rs10 ≠ [] := by with_unfolding_all decide
  have hok : calculate_metrics rs10 = .ok m10 := by with_unfolding_all decide
  obtain ⟨h95, h99⟩ := percentile_nearest_rank rs10 m10 hne hok
  refine ⟨hne, hok, ?_, ?_⟩
  · rw [h95]
    with_unfolding_all decide
  · rw [h99]
    with_unfolding_all decide

/-- C7: For every non-empty sample list with non-negative latencies,
0 ≤ p95 ≤ p99, and both percentiles lie between the minimum and the maximum
observed latency inclusive. -/
theorem percentile_bounds_invariant (rs : List SampleRecord) (m : Metrics)
    (hne : rs ≠ []) (hok : calculate_metrics rs = .ok m)
    (hnn : ∀ r ∈ rs, 0 ≤ elapsedOf r) :
    (0 ≤ m.p95_response_time ∧ m.p95_response_time ≤ m.p99_response_time) ∧
    (∀ mn ∈ rs.map elapsedOf, (∀ x ∈ rs.map elapsedOf, mn ≤ x) →
      mn ≤ m.p95_response_time ∧ mn ≤ m.p99_response_time) ∧
    (∀ mx ∈ rs.map elapsedOf, (∀ x ∈ rs.map elapsedOf, x ≤ mx) →
      m.p95_response_time ≤ mx ∧ m.p99_response_time ≤ mx) := by
  obtain ⟨hv, rfl⟩ := (calculate_metrics_ok_iff hne).mp hok
  have hLperm : (sortedElapsed rs).Perm (rs.map elapsedOf) := by
    unfold sortedElapsed
    exact List.perm_insertionSort _ _
  have hsorted : (sortedElapsed rs).Sorted (· ≤ ·) := by
    unfold sortedElapsed
    exact List.sorted_insertionSort _ _
  have hn : 0 < (sortedElapsed rs).length := by
    rw [hLperm.length_eq, List.length_map]
    exact List.length_pos.mpr hne
  have hi95 : percentileIndex (sortedElapsed rs).length (95 / 100) < (sortedElapsed rs).length :=
    percentileIndex_lt hn (by norm_num)
  have hi99 : percentileIndex (sortedElapsed rs).length (99 / 100) < (sortedElapsed rs).length :=
    percentileIndex_lt hn (by norm_num)
  have hmono : percentileIndex (sortedElapsed rs).length (95 / 100) ≤
      percentileIndex (sortedElapsed rs).length (99 / 100) :=
    percentileIndex_mono _ (by norm_num)
  have hp95 : (mkMetrics rs.length (rs.map parsedOf)).p95_response_time =
      (sortedElapsed rs).get ⟨percentileIndex (sortedElapsed rs).length (95 / 100), hi95⟩ := by
    rw [mkMetrics_p95, sortedElapsed_eq]
    unfold percentileValue
    rw [dif_pos hi95]
  have hp99 : (mkMetrics rs.length (rs.map parsedOf)).p99_response_time =
      (sortedElapsed rs).get ⟨percentileIndex (sortedElapsed rs).length (99 / 100), hi99⟩ := by
    rw [mkMetrics_p99, sortedElapsed_eq]
    unfold percentileValue
    rw [dif_pos hi99]
  have h95mem : (sortedElapsed rs).get
      ⟨percentileIndex (sortedElapsed rs).length (95 / 100), hi95⟩ ∈ rs.map elapsedOf :=
    hLperm.mem_iff.mp (List.get_mem _ _ _)
  have h99mem : (sortedElapsed rs).get
      ⟨percentileIndex (sortedElapsed rs).length (99 / 100), hi99⟩ ∈ rs.map elapsedOf :=
    hLperm.mem_iff.mp (List.get_mem _ _ _)
  refine ⟨⟨?_, ?_⟩, ?_, ?_⟩
  · rw [hp95]
    obtain ⟨r, hr, hrx⟩ := List.mem_map.mp h95mem
    rw [← hrx]
    exact hnn r hr
  · rw [hp95, hp99]
    exact hsorted.rel_get_of_le (Fin.mk_le_mk.mpr hmono)
  · intro mn _ hmnle
    rw [hp95, hp99]
    exact ⟨hmnle _ h95mem, hmnle _ h99mem⟩
  · intro mx _ hmxge
    rw [hp95, hp99]
    exact ⟨hmxge _ h95mem, hmxge _ h99mem⟩

/-- C7 witness: the spec's 3-sample scenario satisfies the hypotheses, and
0 ≤ p95 ≤ p99 holds there. -/
theorem percentile_bounds_invariant_witness :
    rs3 ≠ [] ∧ calculate_metrics rs3 = .ok m3 ∧ (∀ r ∈ rs3, 0 ≤ elapsedOf r) ∧
      (0 ≤ m3.p95_response_time ∧ m3.p95_response_time ≤ m3.p99_response_time) := by
  have hne : rs3 ≠ [] := by with_unfolding_all decide
  have hok : calculate_metrics rs3 = .ok m3 := by with_unfolding_all decide
  have hnn : ∀ r ∈ rs3, 0 ≤ elapsedOf r := by with_unfolding_all decide
  exact ⟨hne, hok, hnn, (percentile_bounds_invariant rs3 m3 hne hok hnn).1⟩

/-- C8: With total_samples fixed and positive, the rounded error rate is
monotone in the error count: e1 ≤ e2 ≤ n gives
round2(e1/n·100) ≤ round2(e2/n·100). -/
theorem error_rate_monotone (n e1 e2 : Nat) (hn : 0 < n) (h12 : e1 ≤ e2) (h2n : e2 ≤ n) :
    round2 (error_rate_of e1 n) ≤ round2 (error_rate_of e2 n) := by
  apply round2_mono
  unfold error_rate_of
  have h12q : (e1 : ℚ) ≤ e2 := by exact_mod_cast h12
  have hfact : (0 : ℚ) ≤ 100 / n := by positivity
  calc (e1 : ℚ) / n * 100 = (e1 : ℚ) * (100 / n) := by ring
    _ ≤ (e2 : ℚ) * (100 / n) := mul_le_mul_of_nonneg_right h12q hfact
    _ = (e2 : ℚ) / n * 100 := by ring

/-- C8 witness: at n = 10, e1 = 1, e2 = 2 the hypotheses hold and the rounded
error rates are ordered. -/
theorem error_rate_monotone_witness :
    0 < 10 ∧ 1 ≤ 2 ∧ 2 ≤ 10 ∧
      round2 (error_rate_of 1 10) ≤ round2 (error_rate_of 2 10) :=
  ⟨by norm_num, by norm_num, by norm_num,
    error_rate_monotone 10 1 2 (by norm_num) (by norm_num) (by norm_num)⟩

/-- C5: A present but non-numeric `elapsed` or `timeStamp` field makes the
Aggregator raise a data-format error to the caller instead of coercing the
value, while a missing `elapsed` or `timeStamp` field is defaulted to 0
without error. -/
theorem nonnumeric_field_error_missing_defaults :
    (∀ (rs : List SampleRecord) (r : SampleRecord), r ∈ rs →
        ((∃ s, r.elapsed = some s ∧ pyParseInt s = none) ∨
          (∃ s, r.timeStamp = some s ∧ pyParseInt s = none)) →
        ∃ msg, calculate_metrics rs = .error msg) ∧
    (∀ r : SampleRecord, r.elapsed = none → getElapsed r = some 0) ∧
    (∀ r : SampleRecord, r.timeStamp = none → getTimeStamp r = some 0) := by
  refine ⟨?_, ?_, ?_⟩
  · intro rs r hmem hbad
    apply calculate_metrics_error_of_invalid hmem
    unfold recordValid
    rcases hbad with ⟨s, hs, hp⟩ | ⟨s, hs, hp⟩
    · have he : getElapsed r = none := by
        unfold getElapsed
        rw [hs]
        exact hp
      simp [he]
    · have ht : getTimeStamp r = none := by
        unfold getTimeStamp
        rw [hs]
        exact hp
      simp [ht]
  · intro r h
    unfold getElapsed
    rw [h]
  · intro r h
    unfold getTimeStamp
    rw [h]

/-- C5 witness: the record with elapsed "abc" makes the run fail, and records
with missing fields default to 0. -/
theorem nonnumeric_field_error_witness :
    (∃ msg, calculate_metrics [⟨none, some "abc", none⟩] = .error msg) ∧
      getElapsed ⟨none, none, none⟩ = some 0 ∧ getTimeStamp ⟨none, none, none⟩ = some 0 := by
  refine ⟨?_, ?_, ?_⟩
  · exact nonnumeric_field_error_missing_defaults.1 [⟨none, some "abc", none⟩]
      ⟨none, some "abc", none⟩ (by simp) (Or.inl ⟨"abc", rfl, by with_unfolding_all decide⟩)
  · exact nonnumeric_field_error_missing_defaults.2.1 _ rfl
  · exact nonnumeric_field_error_missing_defaults.2.2 _ rfl

/-- C6 fails on the code: the record whose `success` field holds the
unrecognized token "banana" is not rejected with a terminal error; it is
silently classified as a success (error_count = 0) and a full summary is
returned. -/
theorem unrecognized_success_counterexample :
    calculate_metrics rsBanana = .ok ⟨1, 0, 0, 100, 100, 100, 1⟩ := by
  with_unfolding_all decide

/-- C6 amended: a `success` token whose lower-cased form is not "false" —
including unrecognized tokens — is classified as success with no error; the
error count is exactly the number of records whose lower-cased token is
"false", and processing always returns a summary when the numeric fields are
valid. -/
theorem unrecognized_success_amended (rs : List SampleRecord)
    (hne : rs ≠ []) (hval : ∀ r ∈ rs, recordValid r = true) :
    ∃ m, calculate_metrics rs = .ok m ∧
      m.error_count = rs.countP (fun r => pyLower (r.success.getD "true") == "false") := by
  refine ⟨mkMetrics rs.length (rs.map parsedOf),
    (calculate_metrics_ok_iff hne).mpr ⟨hval, rfl⟩, ?_⟩
  rw [mkMetrics_error_count, List.countP_map]
  rfl

/-- C6 amended witness: the "banana" record satisfies the hypotheses; its
summary counts zero errors. -/
theorem unrecognized_success_amended_witness :
    rsBanana ≠ [] ∧
      (∃ m, calculate_metrics rsBanana = .ok m ∧
        m.error_count = rsBanana.countP (fun r => pyLower (r.success.getD "true") == "false")) := by
  have hne : rsBanana ≠ [] := by with_unfolding_all decide
  have hval : ∀ r ∈ rsBanana, recordValid r = true := by with_unfolding_all decide
  exact ⟨hne, unrecognized_success_amended rsBanana hne hval⟩

/-- C3 fails on the code: two samples at the same nonzero timestamp give a
span of 0 ≤ 0, yet the reported throughput is 0.0 — the code does not
substitute a 1-second duration there, which would give round(2/1, 2) = 2. -/
theorem throughput_zero_span_counterexample :
    calculate_metrics rsFlat = .ok ⟨2, 0, 0, 100, 100, 100, 0⟩ ∧
      round2 ((2 : ℚ) / 1) = 2 := by
  constructor
  · with_unfolding_all decide
  · with_unfolding_all decide

/-- C3 amended: duration is (max − min)/1000 when both extreme timestamps are
nonzero (Python truthiness) and 1 second otherwise — in particular also when
the span is positive but a timestamp is 0; throughput is
round2(total/duration) when duration > 0 and round2(0) = 0.0 otherwise,
which is the value reported when the span is zero with nonzero timestamps. -/
theorem throughput_formula_amended (rs : List SampleRecord) (m : Metrics)
    (hne : rs ≠ []) (hok : calculate_metrics rs = .ok m)
    (mn mx : Int)
    (hmn : mn ∈ rs.map timeStampOf) (hmnle : ∀ t ∈ rs.map timeStampOf, mn ≤ t)
    (hmx : mx ∈ rs.map timeStampOf) (hmxge : ∀ t ∈ rs.map timeStampOf, t ≤ mx) :
    m.throughput =
      round2 (if 0 < pyDuration mn mx then (rs.length : ℚ) / pyDuration mn mx else 0) := by
  obtain ⟨hv, rfl⟩ := (calculate_metrics_ok_iff hne).mp hok
  apply mkMetrics_throughput
  · simpa using hne
  · rw [timeStamps_map_eq]
    exact hmn
  · rw [timeStamps_map_eq]
    exact hmnle
  · rw [timeStamps_map_eq]
    exact hmx
  · rw [timeStamps_map_eq]
    exact hmxge

/-- C3 amended witness: two samples spanning 1000..3000 ms have duration 2 s
and throughput round2(2/2) = 1. -/
theorem throughput_formula_amended_witness :
    rsSpan ≠ [] ∧ calculate_metrics rsSpan = .ok ⟨2, 0, 0, 200, 300, 300, 1⟩ ∧
      ((⟨2, 0, 0, 200, 300, 300, 1⟩ : Metrics).throughput =
        round2 (if 0 < pyDuration 1000 3000 then (rsSpan.length : ℚ) / pyDuration 1000 3000
          else 0)) ∧
      round2 (if 0 < pyDuration 1000 3000 then (rsSpan.length : ℚ) / pyDuration 1000 3000
        else 0) = 1 := by
  have hne : rsSpan ≠ [] := by with_unfolding_all decide
  have hok : calculate_metrics rsSpan = .ok ⟨2, 0, 0, 200, 300, 300, 1⟩ := by
    with_unfolding_all decide
  refine ⟨hne, hok, ?_, by with_unfolding_all decide⟩
  exact throughput_formula_amended rsSpan _ hne hok 1000 3000
    (by with_unfolding_all decide) (by with_unfolding_all decide)
    (by with_unfolding_all decide) (by with_unfolding_all decide)

/-- C10: When the minimum timestamp is 0 the start-time variable is falsy, so
the code uses a duration of 1 second regardless of the actual span, and the
reported throughput is round2(total/1) = total. -/
theorem zero_min_timestamp_throughput (rs : List SampleRecord) (m : Metrics)
    (hne : rs ≠ []) (hok : calculate_metrics rs = .ok m)
    (hmem : (0 : Int) ∈ rs.map timeStampOf)
    (hge : ∀ t ∈ rs.map timeStampOf, (0 : Int) ≤ t) :
    m.throughput = round2 ((rs.length : ℚ) / 1) ∧ m.throughput = (rs.length : ℚ) := by
  obtain ⟨hv, rfl⟩ := (calculate_metrics_ok_iff hne).mp hok
  have hpne : rs.map parsedOf ≠ [] := by simpa using hne
  obtain ⟨v, hv2, hvmem, hvle⟩ := start_time_spec (rs.map parsedOf) hpne
  rw [timeStamps_map_eq] at hvmem hvle
  have hv0 : v = 0 := le_antisymm (hvle 0 hmem) (hge v hvmem)
  have hthr : (mkMetrics rs.length (rs.map parsedOf)).throughput =
      round2 ((rs.length : ℚ) / 1) := by
    simp only [mkMetrics]
    rw [hv2, hv0]
    have hfalse : (pyTruthy ((rs.map parsedOf).foldl loopStep initState).end_time &&
        pyTruthy (some 0)) = false := by
      simp [pyTruthy]
    rw [hfalse]
    simp only [Bool.false_eq_true, if_false]
    rw [if_pos (by norm_num : (0 : ℚ) < 1)]
  refine ⟨hthr, ?_⟩
  rw [hthr, div_one, round2_natCast]

/-- C10 witness: timestamps 0 and 1000 span a full second, yet throughput is
reported as the sample count 2. -/
theorem zero_min_timestamp_throughput_witness :
    rsZeroStart ≠ [] ∧ calculate_metrics rsZeroStart = .ok ⟨2, 0, 0, 150, 200, 200, 2⟩ ∧
      (⟨2, 0, 0, 150, 200, 200, 2⟩ : Metrics).throughput = ((rsZeroStart.length : ℚ)) := by
  have hne : rsZeroStart ≠ [] := by with_unfolding_all decide
  have hok : calculate_metrics rsZeroStart = .ok ⟨2, 0, 0, 150, 200, 200, 2⟩ := by
    with_unfolding_all decide
  exact ⟨hne, hok, (zero_min_timestamp_throughput rsZeroStart _ hne hok
    (by with_unfolding_all decide) (by with_unfolding_all decide)).2⟩

/-- C9: The Metrics Summary does not depend on the order of the sample
records: a permuted sample list that the Aggregator processes successfully
yields the identical summary. -/
theorem metrics_perm_invariant (rs rs2 : List SampleRecord) (m : Metrics)
    (hperm : rs.Perm rs2) (hok : calculate_metrics rs = .ok m) :
    calculate_metrics rs2 = .ok m := by
  rcases eq_or_ne rs [] with rfl | hne
  · rw [List.Perm.eq_nil hperm.symm]
    exact hok
  · have hne2 : rs2 ≠ [] := fun hh => hne (List.Perm.eq_nil (hh ▸ hperm))
    obtain ⟨hv, rfl⟩ := (calculate_metrics_ok_iff hne).mp hok
    refine (calculate_metrics_ok_iff hne2).mpr
      ⟨fun r hr => hv r (hperm.mem_iff.mpr hr), ?_⟩
    rw [hperm.length_eq]
    exact mkMetrics_perm rs2.length (hperm.map parsedOf)

/-- C9 witness: swapping the two records of rsPair leaves the summary
unchanged. -/
theorem metrics_perm_invariant_witness :
    rsPair.Perm rsPairSwapped ∧ calculate_metrics rsPair = .ok mPair ∧
      calculate_metrics rsPairSwapped = .ok mPair := by
  have hperm : rsPair.Perm rsPairSwapped := List.Perm.swap _ _ _
  have hok : calculate_metrics rsPair = .ok mPair := by with_unfolding_all decide
  exact ⟨hperm, hok, metrics_perm_invariant _ _ _ hperm hok⟩

end QualityGates
